import Mathlib

/-!
# Echo-vault reconciliation engine: a shallow embedding

This file embeds the core of `echo-vault/enclave/tasks.py` (class `EchoTask`):
the block-scanning loop, the per-record echo resolution, the batch clearing of
pending records, and the persistence manager (save / load / legacy recovery),
together with theorems settling the specification claims about them.

External collaborators (ledger gateway, remote signer, blob store) are modelled
as explicit inputs: each chain/signer call an echo attempt makes is drawn from a
`ChainEnv`; block-transaction fetches are a `Nat → FetchResult` function; blob
store reads/writes are explicit `Option`/`Bool` parameters.  Python `int`s are
`Nat` (all quantities involved are non-negative), Python strings are `String`.
The Python expression `int(estimated_gas_cost * 1.1)` is embedded as exact
rational arithmetic `… * 11 / 10` (floor), reading the literal `1.1` exactly.
-/

namespace EchoVault

/-- The status strings a record can carry
(`received`, `processing`, `success`, `skipped`, `failed`). -/
inductive Status where
  | received
  | processing
  | success
  | skipped
  | failed
deriving DecidableEq, Inhabited

/-- One transfer record, the dict built in `EchoTask._process_block`.
The Python dict stores `value` and `gas_fee` as decimal strings; `value` is
kept numeric here (the code round-trips it through `str`/`int`, the identity on
naturals) while `gas_fee` and `echo_value` keep their string representation.
`fromAddr` is the dict's `"from"` key (`from` is a Lean keyword). -/
structure TransferRecord where
  incoming_hash : String
  fromAddr : String
  value : Nat
  block_number : Nat
  timestamp : Nat
  status : Status
  echo_hash : Option String
  echo_value : String
  gas_fee : Option String
deriving DecidableEq, Inhabited

/-- The mutable fields of `EchoTask` that make up the engine state.
`last_save_at` mirrors `_last_save_at` (set only on a successful put). -/
structure EchoState where
  history : List TransferRecord
  last_block : Nat
  persisted_block : Nat
  processed_count : Nat
  pending_hashes : List String
  dirty : Bool
  last_save_at : Nat
deriving DecidableEq, Inhabited

/-- The state `__init__` leaves behind (before `start` runs). -/
def initialState : EchoState :=
  { history := [], last_block := 0, persisted_block := 0, processed_count := 0,
    pending_hashes := [], dirty := false, last_save_at := 0 }

/-- Python's `str.lower()`, character by character.  Lean's `Char.toLower`
lowers exactly the ASCII range, which covers every string this code lowers
(hex addresses and ASCII error messages). -/
def lowerStr (s : String) : String :=
  ⟨s.data.map Char.toLower⟩

/-- Python's `str.startswith`. -/
def strStarts (s p : String) : Bool :=
  p.data.isPrefixOf s.data

/-- Boolean substring test: `containsSub hay needle` is true iff `needle`
occurs contiguously in `hay`.  Embeds Python's `needle in hay`. -/
def charsContain (needle : List Char) : List Char → Bool
  | [] => needle.isEmpty
  | c :: cs => needle.isPrefixOf (c :: cs) || charsContain needle cs

/-- String-level wrapper for `charsContain`. -/
def containsSub (hay needle : String) : Bool :=
  charsContain needle.data hay.data

/-- The transaction-hash normalisation in `_process_block`:
prepend `0x` when missing. -/
def normHash (h : String) : String :=
  if strStarts h "0x" then h else "0x" ++ h

/-- One entry of `chain.get_block_transactions`: the fields `_process_block`
reads.  `to` and `sender` are `Option` because the code guards them with
`tx.get(...)` truthiness (`none` models a missing or empty value). -/
structure ChainTx where
  hash : String
  sender : Option String
  toAddr : Option String
  value : Nat
deriving DecidableEq, Inhabited

/-- Whether a transaction qualifies for a new record in `_process_block`:
recipient is the controlled address, positive value, sender is not the
controlled address itself. -/
def txQualifies (addr : String) (tx : ChainTx) : Bool :=
  match tx.toAddr with
  | none => false
  | some t =>
    lowerStr t = lowerStr addr && tx.value > 0 &&
      !(match tx.sender with
        | none => false
        | some s => lowerStr s = lowerStr addr)

/-- The body of the per-transaction loop of `_process_block`: if the transfer
qualifies and its normalised hash has no record in history, append the hash to
`pending_hashes`, push a fresh `received` record at the head of `history`, and
drop the oldest record when the 100-cap is exceeded.  Returns the updated state
and whether a record was created. -/
def applyTx (addr : String) (blockNumber now : Nat) (st : EchoState)
    (tx : ChainTx) : EchoState × Bool :=
  if txQualifies addr tx then
    let h := normHash tx.hash
    if st.history.any (fun r => r.incoming_hash = h) then (st, false)
    else
      let rec0 : TransferRecord :=
        { incoming_hash := h,
          fromAddr := (tx.sender.getD ""),
          value := tx.value,
          block_number := blockNumber,
          timestamp := now,
          status := .received,
          echo_hash := none,
          echo_value := "Transfer detected",
          gas_fee := none }
      let history1 := rec0 :: st.history
      let history2 := if history1.length > 100 then history1.dropLast else history1
      ({ st with history := history2,
                 pending_hashes := st.pending_hashes ++ [h] }, true)
  else (st, false)

/-- The transaction loop of `_process_block` over a whole block. -/
def scanTxs (addr : String) (blockNumber now : Nat) :
    List ChainTx → EchoState → Nat → EchoState × Nat
  | [], st, found => (st, found)
  | tx :: rest, st, found =>
    let (st', created) := applyTx addr blockNumber now st tx
    scanTxs addr blockNumber now rest st' (if created then found + 1 else found)

/-- Result of `chain.get_block_transactions`: a transaction list, or the
message of the exception it raised. -/
inductive FetchResult where
  | ok (txs : List ChainTx)
  | err (msg : String)
deriving Inhabited

/-- The error-message substring by which `_process_block` recognises the
history-limit condition. -/
def historyLimitMarker : String := "outside eip-2935 ring buffer range"

/-- Outcome of `_process_block`: either the `HistoryLimitExceeded` signal, or
the updated state with the number of new transfers found. -/
inductive BlockOutcome where
  | historyLimit
  | scanned (st : EchoState) (found : Nat)
deriving Inhabited

/-- `_process_block`: on a fetch error, re-raise as `HistoryLimitExceeded`
when the message contains the marker, otherwise log and return 0 found with
the state unchanged; on success scan every transaction. -/
def processBlock (addr : String) (st : EchoState) (blockNumber now : Nat)
    (fetch : FetchResult) : BlockOutcome :=
  match fetch with
  | .err msg =>
    if containsSub (lowerStr msg) historyLimitMarker then .historyLimit
    else .scanned st 0
  | .ok txs =>
    let (st', found) := scanTxs addr blockNumber now txs st 0
    .scanned st' found

/-- Projection: the state carried by a `BlockOutcome` (the input state for the
history-limit signal, which changes nothing by itself). -/
def blockState (st : EchoState) : BlockOutcome → EchoState
  | .historyLimit => st
  | .scanned st' _ => st'

/-- Projection: the found-count of a `BlockOutcome`. -/
def blockFound : BlockOutcome → Nat
  | .historyLimit => 0
  | .scanned _ found => found

/-- The body of the `for b in range(...)` loop of `_run`, over the list of
block numbers still to scan: process each block, set `last_block := b` after
it, mark dirty when transfers were found or when the checkpoint interval
(200 blocks past `persisted_block`) is reached with none found; on
`HistoryLimitExceeded` jump `last_block` to `current`, mark dirty and stop. -/
def scanLoop (addr : String) (current now : Nat) (fetch : Nat → FetchResult) :
    List Nat → EchoState → EchoState
  | [], st => st
  | b :: rest, st =>
    match processBlock addr st b now (fetch b) with
    | .historyLimit => { st with last_block := current, dirty := true }
    | .scanned st' found =>
      let d := st'.dirty || decide (found > 0) ||
        (decide (found = 0) && decide (b - st'.persisted_block ≥ 200))
      scanLoop addr current now fetch rest { st' with last_block := b, dirty := d }

/-- The per-block scan loop of `_run` from block `b` through `current`
(`for b in range(last_block + 1, current_block + 1)`). -/
def scanBlocks (addr : String) (st : EchoState) (b current now : Nat)
    (fetch : Nat → FetchResult) : EchoState :=
  scanLoop addr current now fetch (List.range' b (current + 1 - b)) st

/-- The parameter dict `_echo_transfer` passes to `odyn.sign_tx`.  The Python
dict hex-encodes the numeric fields; they are kept numeric here (hex encoding
is injective presentation).  The constant fields `kind = "structured"` and
`data = "0x"` are implicit. -/
structure TxParams where
  chain_id : Nat
  nonce : Nat
  max_priority_fee_per_gas : Nat
  max_fee_per_gas : Nat
  gas_limit : Nat
  toAddr : String
  value : Nat
deriving DecidableEq, Inhabited

/-- The external world as observed by one `_echo_transfer` call: the values
returned by `get_balance` / `estimate_fees` / `w3.eth.chain_id`, and the
outcomes of `sign_tx` and `send_raw_transaction` (`Except.error msg` models a
raised exception with message `msg`).  Balance and fee queries are modelled as
total; their failure modes abort the whole attempt and are not touched by any
claim. -/
structure ChainEnv where
  chain_id : Nat
  balance : Nat
  priority_fee : Nat
  max_fee : Nat
  sign : TxParams → Except String String
  broadcast : String → Except String String

/-- `safe_gas_cost` for a standard 21000-gas transfer:
`int(21000 * max_fee * 1.1)`, embedded as exact `* 11 / 10` (floor). -/
def safeGasCost (max_fee : Nat) : Nat :=
  21000 * max_fee * 11 / 10

/-- The transaction parameters `_echo_transfer` builds for the echo:
a plain value transfer of `min(value, balance) - safe_gas_cost` back to the
sender with the supplied nonce and current fees. -/
def buildParams (env : ChainEnv) (tx : TransferRecord) (nonce : Nat) : TxParams :=
  { chain_id := env.chain_id,
    nonce := nonce,
    max_priority_fee_per_gas := env.priority_fee,
    max_fee_per_gas := env.max_fee,
    gas_limit := 21000,
    toAddr := tx.fromAddr,
    value := min tx.value env.balance - safeGasCost env.max_fee }

/-- What one `_echo_transfer` call produced: the updated record, the boolean
return value (`handled`), the increment applied to `processed_count`, whether
`_mark_dirty` ran, the sign/broadcast calls that were issued, and whether an
echo transaction was actually broadcast successfully in this call. -/
structure EchoResult where
  record : TransferRecord
  handled : Bool
  processedInc : Nat
  markedDirty : Bool
  signCalls : List TxParams
  broadcastCalls : List String
  freshBroadcast : Bool

/-- The `except` clause of `_echo_transfer`: an error whose message contains
`"already known"` (case-insensitively) normalises the record to `success`
(without touching `echo_hash`, `gas_fee` or `processed_count`); any other
error marks it `failed` with the message recorded in `echo_value`. -/
def echoError (tx : TransferRecord) (msg : String) (now : Nat)
    (sc : List TxParams) (bc : List String) : EchoResult :=
  if containsSub (lowerStr msg) "already known" then
    let tx1 :=
      { tx with
        status := Status.success, echo_value := "Already submitted",
        timestamp := now }
    { record := tx1, handled := true, processedInc := 0, markedDirty := true,
      signCalls := sc, broadcastCalls := bc, freshBroadcast := false }
  else
    let tx1 :=
      { tx with
        status := Status.failed, echo_value := msg, timestamp := now }
    { record := tx1, handled := false, processedInc := 0, markedDirty := true,
      signCalls := sc, broadcastCalls := bc, freshBroadcast := false }

/-- `EchoTask._echo_transfer`: skip when the received value does not cover the
safe gas cost; defer (return `False` with no record change) when the balance
does not cover the gas; otherwise sign and broadcast an echo of
`min(value, balance) - safe_gas_cost`, handling errors via `echoError`. -/
def echoTransfer (env : ChainEnv) (tx : TransferRecord) (nonce now : Nat) :
    EchoResult :=
  let safe := safeGasCost env.max_fee
  if tx.value ≤ safe then
    let tx1 :=
      { tx with
        status := Status.skipped, echo_value := "Value less than gas cost",
        gas_fee := some (toString safe), timestamp := now }
    { record := tx1, handled := true, processedInc := 0, markedDirty := true,
      signCalls := [], broadcastCalls := [], freshBroadcast := false }
  else if env.balance < safe then
    { record := tx, handled := false, processedInc := 0, markedDirty := false,
      signCalls := [], broadcastCalls := [], freshBroadcast := false }
  else
    let echoVal := min tx.value env.balance - safe
    let params := buildParams env tx nonce
    match env.sign params with
    | .error msg => echoError tx msg now [params] []
    | .ok raw =>
      match env.broadcast raw with
      | .error msg => echoError tx msg now [params] [raw]
      | .ok h =>
        let tx1 :=
          { tx with
            status := Status.success, echo_hash := some h,
            echo_value := toString echoVal, gas_fee := some (toString safe),
            timestamp := now }
        { record := tx1, handled := true, processedInc := 1, markedDirty := true,
          signCalls := [params], broadcastCalls := [raw], freshBroadcast := true }

/-- `next((h for h in self.history if h["incoming_hash"] == tx_hash), None)`:
the first record in history with the given hash. -/
def findRecord (history : List TransferRecord) (h : String) :
    Option TransferRecord :=
  history.find? (fun r => r.incoming_hash = h)

/-- In-place mutation of the record dict found by `findRecord`: rewrite the
first record with the given hash. -/
def updateFirst (h : String) (f : TransferRecord → TransferRecord) :
    List TransferRecord → List TransferRecord
  | [] => []
  | r :: rs => if r.incoming_hash = h then f r :: rs else r :: updateFirst h f rs

/-- Trace entry for one attempted record in a `_clear_pending` batch. -/
structure Attempt where
  hash : String
  nonce : Nat
  statusAfter : Status
  handled : Bool
  freshBroadcast : Bool
deriving DecidableEq, Inhabited

/-- Outcome of a `_clear_pending` batch: final state, final value of the local
nonce counter, the boolean return value, and the trace of attempted records. -/
structure BatchResult where
  state : EchoState
  finalNonce : Nat
  ok : Bool
  attempts : List Attempt

/-- What one iteration of the `_clear_pending` loop produced for a record
found in history: the state afterwards, the nonce counter afterwards, whether
the loop continues (the `_echo_transfer` return value), and the trace entry. -/
structure IterResult where
  state : EchoState
  nonce : Nat
  cont : Bool
  att : Attempt

/-- One iteration of the `_clear_pending` loop for hash `h` whose record `r`
was found in history: set the record to `processing`, resolve it via
`echoTransfer`, write the resolved record back (together with the
`processed_count` increment and dirty marking), and on a handled outcome
remove the hash from `pending_hashes` and advance the nonce counter exactly
when the record ended in status `success`. -/
def clearPendingIter (env : ChainEnv) (now : Nat) (h : String)
    (r : TransferRecord) (st : EchoState) (nonce : Nat) : IterResult :=
  let r1 :=
    { r with
      status := Status.processing,
      echo_value := "Preparing echo transaction...", timestamp := now }
  let st1 :=
    { st with
      history := updateFirst h (fun _ => r1) st.history, dirty := true }
  let res := echoTransfer env r1 nonce now
  let st2 :=
    { st1 with
      history := updateFirst h (fun _ => res.record) st1.history,
      processed_count := st1.processed_count + res.processedInc,
      dirty := st1.dirty || res.markedDirty }
  let att : Attempt := ⟨h, nonce, res.record.status, res.handled, res.freshBroadcast⟩
  if res.handled then
    let st3 :=
      { st2 with
        pending_hashes := st2.pending_hashes.erase h, dirty := true }
    let nonce1 := if res.record.status = .success then nonce + 1 else nonce
    ⟨st3, nonce1, true, att⟩
  else ⟨st2, nonce, false, att⟩

/-- The loop body of `_clear_pending` over the snapshot of `pending_hashes`.
`envs k` supplies the external world for the `k`-th `_echo_transfer` call of
the batch; `nonce` is the local nonce counter.  A hash with no record in
history is dropped from `pending_hashes` immediately; otherwise the record is
processed by `clearPendingIter`; an unhandled outcome stops the batch
(`return False`). -/
def clearPendingAux (addr : String) (envs : Nat → ChainEnv) (now : Nat) :
    List String → Nat → EchoState → Nat → BatchResult
  | [], _, st, nonce => ⟨st, nonce, true, []⟩
  | h :: rest, k, st, nonce =>
    match findRecord st.history h with
    | none =>
      let st1 :=
        { st with
          pending_hashes := st.pending_hashes.erase h, dirty := true }
      clearPendingAux addr envs now rest k st1 nonce
    | some r =>
      let it := clearPendingIter (envs k) now h r st nonce
      if it.cont then
        let sub := clearPendingAux addr envs now rest (k + 1) it.state it.nonce
        ⟨sub.state, sub.finalNonce, sub.ok, it.att :: sub.attempts⟩
      else ⟨it.state, it.nonce, false, [it.att]⟩

/-- `EchoTask._clear_pending`: an empty pending list returns `True`
immediately; a failed `get_nonce` (modelled by `nonceRes = none`) returns
`False` with no state change; otherwise iterate over a snapshot of
`pending_hashes` with the single fetched nonce. -/
def clearPending (addr : String) (envs : Nat → ChainEnv) (now : Nat)
    (st : EchoState) (nonceRes : Option Nat) : BatchResult :=
  if st.pending_hashes = [] then ⟨st, 0, true, []⟩
  else
    match nonceRes with
    | none => ⟨st, 0, false, []⟩
    | some n0 => clearPendingAux addr envs now st.pending_hashes 0 st n0

/-- `EchoTask._save_state`: without `force`, return immediately unless dirty;
otherwise serialize and put `state.json` (`putOk` models the store's boolean
reply); only a successful put clears the dirty flag, stamps `last_save_at` and
sets `persisted_block := last_block`.  The returned boolean tells whether a
write was attempted at all. -/
def saveState (st : EchoState) (putOk : Bool) (now : Nat) (force : Bool) :
    EchoState × Bool :=
  if !force && !st.dirty then (st, false)
  else if putOk then
    let st1 :=
      { st with
        dirty := false, last_save_at := now, persisted_block := st.last_block }
    (st1, true)
  else (st, true)

/-- `EchoTask._persist_if_dirty`: save only when dirty and more than
`_save_interval = 60` seconds have passed since the last successful save. -/
def persistIfDirty (st : EchoState) (putOk : Bool) (now : Nat) :
    EchoState × Bool :=
  if st.dirty && decide (now - st.last_save_at > 60) then
    saveState st putOk now false
  else (st, false)

/-- The content of a parsed `state.json` blob. -/
structure SavedState where
  last_block : Nat
  processed_count : Nat
  history : List TransferRecord
  pending_hashes : List String
deriving DecidableEq, Inhabited

/-- `EchoTask._load_state`: a present, parsable blob installs its fields and
sets `persisted_block := last_block`; `none` models an absent or unparsable
blob (the function then returns `False` and changes nothing). -/
def loadState (st : EchoState) (blob : Option SavedState) : EchoState × Bool :=
  match blob with
  | none => (st, false)
  | some s =>
    let st1 :=
      { st with
        last_block := s.last_block, persisted_block := s.last_block,
        processed_count := s.processed_count, history := s.history,
        pending_hashes := s.pending_hashes }
    (st1, true)

/-- `EchoTask._recover_state_from_s3_legacy`: collect the parsable records
under the legacy `echoes/` prefix (`none` entries model unreadable or
unparsable blobs, which are skipped), sort them by timestamp descending
(stably, like Python's `sort(..., reverse=True)`) and keep the newest 100 as
history; the pending list collects, in listing order, the hashes of records
whose status is `received` or `failed`; `processed_count` becomes the number
of `success` records. -/
def recoverLegacy (st : EchoState) (legacy : List (Option TransferRecord)) :
    EchoState :=
  let recs := legacy.reduceOption
  let sorted := recs.insertionSort (fun a b => b.timestamp ≤ a.timestamp)
  { st with
    history := sorted.take 100,
    pending_hashes := recs.filterMap (fun r =>
      if r.status = .received || r.status = .failed then some r.incoming_hash
      else none),
    processed_count := (recs.filter (fun r => r.status = .success)).length }

/-- `EchoTask.start` up to the point the background thread is spawned:
try the consolidated `state.json` (`blob`); when absent, fall back to the
legacy `last_block` blob or the chain height, recover legacy records, and call
`_save_state()` (with its default `force = False`).  Returns the state the
loop starts from and whether a consolidated snapshot write was attempted. -/
def start (blob : Option SavedState) (legacyLastBlock : Option Nat)
    (chainHeight : Nat) (legacy : List (Option TransferRecord))
    (putOk : Bool) (now : Nat) : EchoState × Bool :=
  match loadState initialState blob with
  | (st, true) => (st, false)
  | (st, false) =>
    let st1 :=
      match legacyLastBlock with
      | some b => { st with last_block := b, persisted_block := b }
      | none => { st with last_block := chainHeight, persisted_block := chainHeight }
    let st2 := recoverLegacy st1 legacy
    saveState st2 putOk now false

/-- The scanning phase of one `_run` iteration: the block loop runs only when
the chain height is strictly ahead of `last_block`. -/
def scanPhase (addr : String) (st : EchoState) (current now : Nat)
    (fetch : Nat → FetchResult) : EchoState :=
  if current > st.last_block then
    scanBlocks addr st (st.last_block + 1) current now fetch
  else st

/-- One observable state transition of the running engine: a scanning phase,
a `_clear_pending` batch, or a `_persist_if_dirty` call.  The external world
(height, fetches, chain environments, nonce, store reply, clock) is
existentially packaged in each constructor. -/
inductive Step (addr : String) : EchoState → EchoState → Prop
  | scan (st : EchoState) (current now : Nat) (fetch : Nat → FetchResult) :
      Step addr st (scanPhase addr st current now fetch)
  | clear (st : EchoState) (envs : Nat → ChainEnv) (now : Nat)
      (nonceRes : Option Nat) :
      Step addr st (clearPending addr envs now st nonceRes).state
  | persist (st : EchoState) (putOk : Bool) (now : Nat) :
      Step addr st (persistIfDirty st putOk now).fst

/-- The reachable engine states: any outcome of `start`, closed under `Step`. -/
inductive Reachable (addr : String) : EchoState → Prop
  | start (blob : Option SavedState) (legacyLastBlock : Option Nat)
      (chainHeight : Nat) (legacy : List (Option TransferRecord))
      (putOk : Bool) (now : Nat) :
      Reachable addr (EchoVault.start blob legacyLastBlock chainHeight legacy
        putOk now).fst
  | step {st st' : EchoState} : Reachable addr st → Step addr st st' →
      Reachable addr st'

/-! ## Basic facts about echo resolution -/

/-- Resolution never changes a record's key. -/
theorem echoError_incoming_hash (tx : TransferRecord) (msg : String) (now : Nat)
    (sc : List TxParams) (bc : List String) :
    (echoError tx msg now sc bc).record.incoming_hash = tx.incoming_hash := by
  simp only [echoError]
  split <;> rfl

/-- `_echo_transfer` never changes a record's key. -/
theorem echoTransfer_incoming_hash (env : ChainEnv) (tx : TransferRecord)
    (nonce now : Nat) :
    (echoTransfer env tx nonce now).record.incoming_hash = tx.incoming_hash := by
  simp only [echoTransfer]
  split
  · rfl
  · split
    · rfl
    · split
      · exact echoError_incoming_hash ..
      · split
        · exact echoError_incoming_hash ..
        · rfl

/-- A handled (`True`) outcome of `_echo_transfer` leaves the record in a
terminal status: `success` or `skipped`. -/
theorem echoTransfer_handled_status (env : ChainEnv) (tx : TransferRecord)
    (nonce now : Nat) (hh : (echoTransfer env tx nonce now).handled = true) :
    (echoTransfer env tx nonce now).record.status = Status.success ∨
    (echoTransfer env tx nonce now).record.status = Status.skipped := by
  simp only [echoTransfer] at hh ⊢
  by_cases h1 : tx.value ≤ safeGasCost env.max_fee
  · rw [if_pos h1]
    exact Or.inr rfl
  · rw [if_neg h1] at hh ⊢
    by_cases h2 : env.balance < safeGasCost env.max_fee
    · rw [if_pos h2] at hh
      simp at hh
    · rw [if_neg h2] at hh ⊢
      rcases hsign : env.sign (buildParams env tx nonce) with msg | raw <;>
        simp only [hsign] at hh ⊢
      · simp only [echoError] at hh ⊢
        by_cases h3 : containsSub (lowerStr msg) "already known" = true
        · rw [if_pos h3]
          exact Or.inl rfl
        · rw [if_neg h3] at hh
          simp at hh
      · rcases hbc : env.broadcast raw with msg | hsh <;>
          simp only [hbc] at hh ⊢
        · simp only [echoError] at hh ⊢
          by_cases h3 : containsSub (lowerStr msg) "already known" = true
          · rw [if_pos h3]
            exact Or.inl rfl
          · rw [if_neg h3] at hh
            simp at hh
        · exact Or.inl trivial

/-- An unhandled (`False`) outcome leaves `pending_hashes` untouched later on;
the record itself is either unchanged (defer) or marked `failed`. -/
theorem echoTransfer_not_handled (env : ChainEnv) (tx : TransferRecord)
    (nonce now : Nat) (hh : (echoTransfer env tx nonce now).handled = false) :
    (echoTransfer env tx nonce now).record = tx ∨
    (echoTransfer env tx nonce now).record.status = Status.failed := by
  simp only [echoTransfer] at hh ⊢
  by_cases h1 : tx.value ≤ safeGasCost env.max_fee
  · rw [if_pos h1] at hh
    simp at hh
  · rw [if_neg h1] at hh ⊢
    by_cases h2 : env.balance < safeGasCost env.max_fee
    · rw [if_pos h2]
      exact Or.inl rfl
    · rw [if_neg h2] at hh ⊢
      rcases hsign : env.sign (buildParams env tx nonce) with msg | raw <;>
        simp only [hsign] at hh ⊢
      · simp only [echoError] at hh ⊢
        by_cases h3 : containsSub (lowerStr msg) "already known" = true
        · rw [if_pos h3] at hh
          simp at hh
        · rw [if_neg h3]
          exact Or.inr rfl
      · rcases hbc : env.broadcast raw with msg | hsh <;>
          simp only [hbc] at hh ⊢
        · simp only [echoError] at hh ⊢
          by_cases h3 : containsSub (lowerStr msg) "already known" = true
          · rw [if_pos h3] at hh
            simp at hh
          · rw [if_neg h3]
            exact Or.inr rfl
        · simp at hh

/-! ## C1: arithmetic of a freshly broadcast echo -/

/-- **C1.**  For every record that `_echo_transfer` resolves to `success` by
actually signing and broadcasting an echo transaction (`freshBroadcast`), the
recorded `echo_value` is `min(value, balance) - safe_gas_cost` and the
recorded `gas_fee` is `safe_gas_cost`, hence `echo_value + gas_fee ≤ value`,
with equality exactly when the balance at resolution time is at least the
received value. -/
theorem claim_C1_success_echo_arithmetic (env : ChainEnv) (tx : TransferRecord)
    (nonce now : Nat)
    (hfb : (echoTransfer env tx nonce now).freshBroadcast = true) :
    (echoTransfer env tx nonce now).record.status = Status.success ∧
    (echoTransfer env tx nonce now).record.echo_value =
      toString (min tx.value env.balance - safeGasCost env.max_fee) ∧
    (echoTransfer env tx nonce now).record.gas_fee =
      some (toString (safeGasCost env.max_fee)) ∧
    (min tx.value env.balance - safeGasCost env.max_fee) +
      safeGasCost env.max_fee ≤ tx.value ∧
    ((min tx.value env.balance - safeGasCost env.max_fee) +
      safeGasCost env.max_fee = tx.value ↔ env.balance ≥ tx.value) := by
  simp only [echoTransfer] at hfb ⊢
  by_cases h1 : tx.value ≤ safeGasCost env.max_fee
  · rw [if_pos h1] at hfb
    simp at hfb
  · rw [if_neg h1] at hfb ⊢
    by_cases h2 : env.balance < safeGasCost env.max_fee
    · rw [if_pos h2] at hfb
      simp at hfb
    · rw [if_neg h2] at hfb ⊢
      rcases hsign : env.sign (buildParams env tx nonce) with msg | raw <;>
        simp only [hsign] at hfb ⊢
      · simp only [echoError] at hfb
        by_cases h3 : containsSub (lowerStr msg) "already known" = true
        · rw [if_pos h3] at hfb
          simp at hfb
        · rw [if_neg h3] at hfb
          simp at hfb
      · rcases hbc : env.broadcast raw with msg | hsh <;>
          simp only [hbc] at hfb ⊢
        · simp only [echoError] at hfb
          by_cases h3 : containsSub (lowerStr msg) "already known" = true
          · rw [if_pos h3] at hfb
            simp at hfb
          · rw [if_neg h3] at hfb
            simp at hfb
        · refine ⟨trivial, trivial, trivial, ?_, ?_⟩ <;>
            · rw [Nat.min_def]
              split <;> omega

/-- Witness for C1: value 50000, balance 30000, `max_fee` 1
(`safe_gas_cost = 23100`), sign and broadcast both succeed. -/
theorem claim_C1_success_echo_arithmetic_witness :
    (echoTransfer
      { chain_id := 1, balance := 30000, priority_fee := 1, max_fee := 1,
        sign := fun _ => Except.ok "rawtx",
        broadcast := fun _ => Except.ok "0xecho" }
      { incoming_hash := "0xa0", fromAddr := "0xsender", value := 50000,
        block_number := 3, timestamp := 5, status := Status.received,
        echo_hash := none, echo_value := "Transfer detected", gas_fee := none }
      7 9).freshBroadcast = true ∧
    ((echoTransfer
      { chain_id := 1, balance := 30000, priority_fee := 1, max_fee := 1,
        sign := fun _ => Except.ok "rawtx",
        broadcast := fun _ => Except.ok "0xecho" }
      { incoming_hash := "0xa0", fromAddr := "0xsender", value := 50000,
        block_number := 3, timestamp := 5, status := Status.received,
        echo_hash := none, echo_value := "Transfer detected", gas_fee := none }
      7 9).record.status = Status.success ∧
    (echoTransfer
      { chain_id := 1, balance := 30000, priority_fee := 1, max_fee := 1,
        sign := fun _ => Except.ok "rawtx",
        broadcast := fun _ => Except.ok "0xecho" }
      { incoming_hash := "0xa0", fromAddr := "0xsender", value := 50000,
        block_number := 3, timestamp := 5, status := Status.received,
        echo_hash := none, echo_value := "Transfer detected", gas_fee := none }
      7 9).record.echo_value = toString (min 50000 30000 - safeGasCost 1) ∧
    (echoTransfer
      { chain_id := 1, balance := 30000, priority_fee := 1, max_fee := 1,
        sign := fun _ => Except.ok "rawtx",
        broadcast := fun _ => Except.ok "0xecho" }
      { incoming_hash := "0xa0", fromAddr := "0xsender", value := 50000,
        block_number := 3, timestamp := 5, status := Status.received,
        echo_hash := none, echo_value := "Transfer detected", gas_fee := none }
      7 9).record.gas_fee = some (toString (safeGasCost 1)) ∧
    (min 50000 30000 - safeGasCost 1) + safeGasCost 1 ≤ 50000 ∧
    ((min 50000 30000 - safeGasCost 1) + safeGasCost 1 = 50000 ↔
      (30000 : Nat) ≥ 50000)) :=
  ⟨by decide, claim_C1_success_echo_arithmetic _ _ 7 9 (by decide)⟩

/-! ## C2: uneconomical transfers are skipped without any outbound call -/

/-- **C2.**  For every record whose value does not exceed
`safe_gas_cost = 21000 * max_fee * 1.1`, resolution sets the terminal status
`skipped`, records `gas_fee = safe_gas_cost`, and issues no signer and no
broadcast call at all. -/
theorem claim_C2_uneconomical_skip (env : ChainEnv) (tx : TransferRecord)
    (nonce now : Nat)
    (hv : tx.value ≤ safeGasCost env.max_fee) :
    (echoTransfer env tx nonce now).record.status = Status.skipped ∧
    (echoTransfer env tx nonce now).record.gas_fee =
      some (toString (safeGasCost env.max_fee)) ∧
    (echoTransfer env tx nonce now).signCalls = [] ∧
    (echoTransfer env tx nonce now).broadcastCalls = [] ∧
    (echoTransfer env tx nonce now).handled = true := by
  simp only [echoTransfer]
  rw [if_pos hv]
  exact ⟨rfl, rfl, rfl, rfl, rfl⟩

/-- Witness for C2: a 100-unit transfer against `safe_gas_cost = 23100`. -/
theorem claim_C2_uneconomical_skip_witness :
    (100 : Nat) ≤ safeGasCost 1 ∧
    ((echoTransfer
      { chain_id := 1, balance := 30000, priority_fee := 1, max_fee := 1,
        sign := fun _ => Except.ok "rawtx",
        broadcast := fun _ => Except.ok "0xecho" }
      { incoming_hash := "0xb0", fromAddr := "0xsender", value := 100,
        block_number := 3, timestamp := 5, status := Status.received,
        echo_hash := none, echo_value := "Transfer detected", gas_fee := none }
      7 9).record.status = Status.skipped ∧
    (echoTransfer
      { chain_id := 1, balance := 30000, priority_fee := 1, max_fee := 1,
        sign := fun _ => Except.ok "rawtx",
        broadcast := fun _ => Except.ok "0xecho" }
      { incoming_hash := "0xb0", fromAddr := "0xsender", value := 100,
        block_number := 3, timestamp := 5, status := Status.received,
        echo_hash := none, echo_value := "Transfer detected", gas_fee := none }
      7 9).record.gas_fee = some (toString (safeGasCost 1)) ∧
    (echoTransfer
      { chain_id := 1, balance := 30000, priority_fee := 1, max_fee := 1,
        sign := fun _ => Except.ok "rawtx",
        broadcast := fun _ => Except.ok "0xecho" }
      { incoming_hash := "0xb0", fromAddr := "0xsender", value := 100,
        block_number := 3, timestamp := 5, status := Status.received,
        echo_hash := none, echo_value := "Transfer detected", gas_fee := none }
      7 9).signCalls = [] ∧
    (echoTransfer
      { chain_id := 1, balance := 30000, priority_fee := 1, max_fee := 1,
        sign := fun _ => Except.ok "rawtx",
        broadcast := fun _ => Except.ok "0xecho" }
      { incoming_hash := "0xb0", fromAddr := "0xsender", value := 100,
        block_number := 3, timestamp := 5, status := Status.received,
        echo_hash := none, echo_value := "Transfer detected", gas_fee := none }
      7 9).broadcastCalls = [] ∧
    (echoTransfer
      { chain_id := 1, balance := 30000, priority_fee := 1, max_fee := 1,
        sign := fun _ => Except.ok "rawtx",
        broadcast := fun _ => Except.ok "0xecho" }
      { incoming_hash := "0xb0", fromAddr := "0xsender", value := 100,
        block_number := 3, timestamp := 5, status := Status.received,
        echo_hash := none, echo_value := "Transfer detected", gas_fee := none }
      7 9).handled = true) :=
  ⟨by decide, claim_C2_uneconomical_skip _ _ 7 9 (by decide)⟩

/-! ## C10: the "already known" normalisation -/

/-- **C10.**  When the broadcast raises an error whose message contains
"already known" (case-insensitively), the record is normalised to `success`
but `echo_hash` and `gas_fee` are left exactly as they were (in particular
`none` as created), `processed_count` is not incremented, and no fresh
broadcast is recorded.  Hence not every `success` record carries an
`echo_hash`/`gas_fee`, and `processed_count` counts only freshly broadcast
echoes. -/
theorem claim_C10_already_known_normalisation (env : ChainEnv)
    (tx : TransferRecord) (nonce now : Nat) (raw msg : String)
    (hv : safeGasCost env.max_fee < tx.value)
    (hb : safeGasCost env.max_fee ≤ env.balance)
    (hsign : env.sign (buildParams env tx nonce) = Except.ok raw)
    (hbc : env.broadcast raw = Except.error msg)
    (hak : containsSub (lowerStr msg) "already known" = true) :
    (echoTransfer env tx nonce now).record.status = Status.success ∧
    (echoTransfer env tx nonce now).record.echo_hash = tx.echo_hash ∧
    (echoTransfer env tx nonce now).record.gas_fee = tx.gas_fee ∧
    (echoTransfer env tx nonce now).processedInc = 0 ∧
    (echoTransfer env tx nonce now).freshBroadcast = false := by
  simp only [echoTransfer]
  rw [if_neg (by omega : ¬ tx.value ≤ safeGasCost env.max_fee),
    if_neg (by omega : ¬ env.balance < safeGasCost env.max_fee)]
  simp only [hsign, hbc, echoError]
  rw [if_pos hak]
  exact ⟨rfl, rfl, rfl, rfl, rfl⟩

/-- Witness for C10: a broadcast failing with "Already Known", on a record
created with `echo_hash = none` and `gas_fee = none`: the resulting `success`
record still carries neither. -/
theorem claim_C10_already_known_normalisation_witness :
    safeGasCost 1 < 50000 ∧
    ((echoTransfer
      { chain_id := 1, balance := 30000, priority_fee := 1, max_fee := 1,
        sign := fun _ => Except.ok "rawtx",
        broadcast := fun _ => Except.error "tx Already Known" }
      { incoming_hash := "0xc0", fromAddr := "0xsender", value := 50000,
        block_number := 3, timestamp := 5, status := Status.received,
        echo_hash := none, echo_value := "Transfer detected", gas_fee := none }
      7 9).record.status = Status.success ∧
    (echoTransfer
      { chain_id := 1, balance := 30000, priority_fee := 1, max_fee := 1,
        sign := fun _ => Except.ok "rawtx",
        broadcast := fun _ => Except.error "tx Already Known" }
      { incoming_hash := "0xc0", fromAddr := "0xsender", value := 50000,
        block_number := 3, timestamp := 5, status := Status.received,
        echo_hash := none, echo_value := "Transfer detected", gas_fee := none }
      7 9).record.echo_hash = none ∧
    (echoTransfer
      { chain_id := 1, balance := 30000, priority_fee := 1, max_fee := 1,
        sign := fun _ => Except.ok "rawtx",
        broadcast := fun _ => Except.error "tx Already Known" }
      { incoming_hash := "0xc0", fromAddr := "0xsender", value := 50000,
        block_number := 3, timestamp := 5, status := Status.received,
        echo_hash := none, echo_value := "Transfer detected", gas_fee := none }
      7 9).record.gas_fee = none ∧
    (echoTransfer
      { chain_id := 1, balance := 30000, priority_fee := 1, max_fee := 1,
        sign := fun _ => Except.ok "rawtx",
        broadcast := fun _ => Except.error "tx Already Known" }
      { incoming_hash := "0xc0", fromAddr := "0xsender", value := 50000,
        block_number := 3, timestamp := 5, status := Status.received,
        echo_hash := none, echo_value := "Transfer detected", gas_fee := none }
      7 9).processedInc = 0 ∧
    (echoTransfer
      { chain_id := 1, balance := 30000, priority_fee := 1, max_fee := 1,
        sign := fun _ => Except.ok "rawtx",
        broadcast := fun _ => Except.error "tx Already Known" }
      { incoming_hash := "0xc0", fromAddr := "0xsender", value := 50000,
        block_number := 3, timestamp := 5, status := Status.received,
        echo_hash := none, echo_value := "Transfer detected", gas_fee := none }
      7 9).freshBroadcast = false) :=
  ⟨by decide,
    claim_C10_already_known_normalisation _ _ 7 9 "rawtx" "tx Already Known"
      (by decide) (by decide) rfl rfl (by decide)⟩

/-! ## Scanning lemmas, C5 and C7 -/

/-- Once entered with at least one block to scan, the block loop always leaves
`last_block` exactly at `current`: either it completes (the last processed
block is `current`), or a history-limit jump sets it to `current`. -/
theorem scanLoop_last_eq (addr : String) (current now : Nat)
    (fetch : Nat → FetchResult) :
    ∀ (n b : Nat) (st : EchoState), 1 ≤ n → b + n = current + 1 →
      (scanLoop addr current now fetch (List.range' b n) st).last_block =
        current := by
  intro n
  induction n with
  | zero => omega
  | succ m ih =>
    intro b st h1 h2
    show (scanLoop addr current now fetch (b :: List.range' (b + 1) m) st).last_block
      = current
    simp only [scanLoop]
    rcases hpb : processBlock addr st b now (fetch b) with _ | ⟨st1, found⟩
    · rfl
    · dsimp only
      rcases Nat.eq_zero_or_pos m with hm | hm
      · subst hm
        show ({ st1 with last_block := b, dirty := _ } : EchoState).last_block
          = current
        dsimp only
        omega
      · exact ih (b + 1) _ hm (by omega)

/-- `scanBlocks` from `b ≤ current` always ends with `last_block = current`. -/
theorem scanBlocks_last_eq (addr : String) (st : EchoState)
    (b current now : Nat) (fetch : Nat → FetchResult) (hb : b ≤ current) :
    (scanBlocks addr st b current now fetch).last_block = current := by
  unfold scanBlocks
  exact scanLoop_last_eq addr current now fetch _ b st (by omega) (by omega)

/-- **C7.**  Whenever the gateway reports that block `b` is outside its
retained history window (the fetch raises with the ring-buffer marker in its
message), the scan does not retry the block: it jumps `last_block` directly to
the current height, marks the state dirty, and changes nothing else — the
range `b..current` stays permanently unscanned. -/
theorem claim_C7_history_limit_jump (addr : String) (st : EchoState)
    (b current now : Nat) (fetch : Nat → FetchResult) (msg : String)
    (hb : b ≤ current)
    (hfetch : fetch b = FetchResult.err msg)
    (hmk : containsSub (lowerStr msg) historyLimitMarker = true) :
    scanBlocks addr st b current now fetch =
      { st with last_block := current, dirty := true } := by
  unfold scanBlocks
  obtain ⟨m, hm⟩ : ∃ m, current + 1 - b = m + 1 := ⟨current - b, by omega⟩
  rw [hm]
  show scanLoop addr current now fetch (b :: List.range' (b + 1) m) st = _
  simp only [scanLoop, hfetch, processBlock]
  rw [if_pos hmk]

/-- Witness for C7: height 9, block 4 answered with the history-limit error. -/
theorem claim_C7_history_limit_jump_witness :
    containsSub (lowerStr "block is outside eip-2935 ring buffer range")
      historyLimitMarker = true ∧
    scanBlocks "0xme" initialState 4 9 11
        (fun _ => FetchResult.err "block is outside eip-2935 ring buffer range") =
      { initialState with last_block := 9, dirty := true } :=
  ⟨by decide,
    claim_C7_history_limit_jump "0xme" initialState 4 9 11
      (fun _ => FetchResult.err "block is outside eip-2935 ring buffer range")
      "block is outside eip-2935 ring buffer range"
      (by decide) rfl (by decide)⟩

/-- **C5 (amended).**  A transient (non-history-limit) error fetching block
`b`'s transactions is caught inside `_process_block`, which records nothing
for that block and reports 0 transfers found; the scan loop then *advances*
`last_block` past the failed block all the way to `current`, so the block is
not retried on the next iteration. -/
theorem claim_C5_transient_fetch_error_skips_block (addr : String)
    (st : EchoState) (b current now : Nat) (fetch : Nat → FetchResult)
    (msg : String)
    (hb : b ≤ current)
    (hfetch : fetch b = FetchResult.err msg)
    (hmk : containsSub (lowerStr msg) historyLimitMarker = false) :
    processBlock addr st b now (fetch b) = BlockOutcome.scanned st 0 ∧
    (scanBlocks addr st b current now fetch).last_block = current := by
  constructor
  · rw [hfetch]
    simp only [processBlock]
    rw [if_neg (by simp [hmk])]
  · exact scanBlocks_last_eq addr st b current now fetch hb

/-- Witness for the amended C5: a connection error at block 4 of a height-4
chain. -/
theorem claim_C5_transient_fetch_error_skips_block_witness :
    containsSub (lowerStr "connection reset") historyLimitMarker = false ∧
    (processBlock "0xme" initialState 4 11
        ((fun _ => FetchResult.err "connection reset") 4) =
      BlockOutcome.scanned initialState 0 ∧
    (scanBlocks "0xme" initialState 4 4 11
        (fun _ => FetchResult.err "connection reset")).last_block = 4) :=
  ⟨by decide,
    claim_C5_transient_fetch_error_skips_block "0xme" initialState 4 4 11
      (fun _ => FetchResult.err "connection reset")
      "connection reset" (by decide) rfl (by decide)⟩

/-- Counterexample to C5 as stated: with `last_block = 3` and height 4, the
fetch of block 4 fails with a transient error, yet the engine advances
`last_block` to 4 — past a block that was never successfully scanned — so the
block is *not* retried on the next loop iteration. -/
theorem claim_C5_counterexample :
    (scanBlocks "0xme" { initialState with last_block := 3 } 4 4 11
        (fun _ => FetchResult.err "connection reset")).last_block = 4 ∧
    (scanBlocks "0xme" { initialState with last_block := 3 } 4 4 11
        (fun _ => FetchResult.err "connection reset")).history = [] ∧
    (scanBlocks "0xme" { initialState with last_block := 3 } 4 4 11
        (fun _ => FetchResult.err "connection reset")).pending_hashes = [] := by
  decide

/-! ## C6: startup recovery from the legacy layout -/

/-- A legacy per-record blob left mid-resolution, with the non-terminal
status `processing`. -/
def legacyProcessingRecord : TransferRecord :=
  { incoming_hash := "0xd0", fromAddr := "0xsender", value := 50000,
    block_number := 3, timestamp := 5, status := Status.processing,
    echo_hash := none, echo_value := "Preparing echo transaction...",
    gas_fee := none }

/-- **C6 (code bug).**  When the consolidated blob is absent, `start` runs
legacy recovery and then calls `_save_state()` — but with `force = False` and
the dirty flag still clear, so the promised immediate consolidated snapshot
is never written (first conjunct: the write-attempted flag is `false` for
every legacy input).  Moreover a legacy record in the non-terminal status
`processing` is reconstructed into history but *not* into `pending_hashes`
(second and third conjuncts), although the claim counts `processing` among
the non-terminal statuses to re-pend. -/
theorem claim_C6_recovery_never_writes_snapshot :
    (∀ (legacyLastBlock : Option Nat) (chainHeight : Nat)
      (legacy : List (Option TransferRecord)) (putOk : Bool) (now : Nat),
      (start none legacyLastBlock chainHeight legacy putOk now).snd = false) ∧
    (recoverLegacy initialState [some legacyProcessingRecord]).pending_hashes
      = [] ∧
    (recoverLegacy initialState [some legacyProcessingRecord]).history
      = [legacyProcessingRecord] := by
  refine ⟨?_, by decide, by decide⟩
  intro llb chainHeight legacy putOk now
  simp only [start, loadState]
  cases llb <;>
    simp [saveState, recoverLegacy, initialState]

/-! ## C8: idempotence of re-scanning -/

/-- A transaction whose normalised hash still has a record in history is a
no-op for `_process_block`: the state is returned unchanged, no record
created, nothing appended to `pending_hashes`. -/
theorem applyTx_dup_noop (addr : String) (blockNumber now : Nat)
    (st : EchoState) (tx : ChainTx)
    (hmem : ∃ r ∈ st.history, r.incoming_hash = normHash tx.hash) :
    applyTx addr blockNumber now st tx = (st, false) := by
  simp only [applyTx]
  rcases hmem with ⟨r, hr, hh⟩
  have hany : (st.history.any (fun r => r.incoming_hash = normHash tx.hash))
      = true :=
    List.any_eq_true.mpr ⟨r, hr, by simp [hh]⟩
  by_cases hq : txQualifies addr tx = true
  · rw [if_pos hq, if_pos hany]
  · rw [if_neg hq]

/-- **C8 (amended).**  Re-scanning a transaction whose (normalised) hash still
has a record in the bounded history creates nothing: the state is returned
unchanged and no record is created.  (The 100-record cap voids this once the
original record has been evicted — see the counterexample.) -/
theorem claim_C8_no_duplicate_while_record_in_history (addr : String)
    (blockNumber now : Nat) (st : EchoState) (tx : ChainTx)
    (hmem : ∃ r ∈ st.history, r.incoming_hash = normHash tx.hash) :
    applyTx addr blockNumber now st tx = (st, false) :=
  applyTx_dup_noop addr blockNumber now st tx hmem

/-- The record already in history when block 1 is re-scanned (C8 witness). -/
def rescanRecord : TransferRecord :=
  { incoming_hash := "0xa0", fromAddr := "0xs", value := 5,
    block_number := 1, timestamp := 5, status := Status.received,
    echo_hash := none, echo_value := "Transfer detected", gas_fee := none }

/-- The engine state holding `rescanRecord` (C8 witness). -/
def rescanState : EchoState :=
  { initialState with history := [rescanRecord], pending_hashes := ["0xa0"] }

/-- Witness for the amended C8: re-scanning the transfer `0xa0` whose record
is present in history changes nothing. -/
theorem claim_C8_no_duplicate_while_record_in_history_witness :
    (∃ r ∈ rescanState.history, r.incoming_hash = normHash "0xa0") ∧
    applyTx "0xme" 1 7 rescanState
      { hash := "0xa0", sender := some "0xs", toAddr := some "0xme", value := 5 }
      = (rescanState, false) :=
  ⟨by decide,
    claim_C8_no_duplicate_while_record_in_history "0xme" 1 7 _ _ (by decide)⟩

/-- The first incoming transfer, in block 1. -/
def evictionTx0 : ChainTx :=
  { hash := "0xa0", sender := some "0xs", toAddr := some "0xme", value := 5 }

/-- One hundred further qualifying transfers, arriving in block 2. -/
def evictionFillers : List ChainTx :=
  (List.range 100).map (fun i =>
    { hash := "0xf" ++ toString i, sender := some "0xs",
      toAddr := some "0xme", value := 5 })

/-- State after scanning block 1 (the record for `0xa0` is created). -/
def evictionS1 : EchoState :=
  blockState initialState
    (processBlock "0xme" initialState 1 5 (FetchResult.ok [evictionTx0]))

/-- State after additionally scanning block 2 with 100 more transfers: the
record for `0xa0` has been evicted from the 100-capped history. -/
def evictionS2 : EchoState :=
  blockState evictionS1
    (processBlock "0xme" evictionS1 2 6 (FetchResult.ok evictionFillers))

set_option maxRecDepth 1000000 in
/-- Counterexample to C8 as stated: block 1 is scanned twice with 100 other
transfers recorded in between.  The first scan creates a record for `0xa0`;
the 100 fillers evict it from the bounded history; re-scanning block 1 then
creates a *second* record for `0xa0` (one new transfer found, and the hash
now appears twice in `pending_hashes`). -/
theorem claim_C8_counterexample :
    evictionS1.history.any (fun r => r.incoming_hash = "0xa0") = true ∧
    evictionS1.pending_hashes.count "0xa0" = 1 ∧
    evictionS2.history.any (fun r => r.incoming_hash = "0xa0") = false ∧
    blockFound (processBlock "0xme" evictionS2 1 7 (FetchResult.ok [evictionTx0]))
      = 1 ∧
    (blockState evictionS2
        (processBlock "0xme" evictionS2 1 7 (FetchResult.ok [evictionTx0]))
      ).pending_hashes.count "0xa0" = 2 := by
  decide

/-! ## Lemmas about record lookup and the `_clear_pending` iteration -/

/-- The record `findRecord` returns carries the hash that was looked up. -/
theorem findRecord_hash {hist : List TransferRecord} {h : String}
    {r : TransferRecord} (hf : findRecord hist h = some r) :
    r.incoming_hash = h := by
  have := List.find?_some hf
  simpa using this

/-- Looking up the rewritten hash after `updateFirst` sees the rewrite,
provided the rewrite keeps the hash. -/
theorem findRecord_updateFirst_self (h : String)
    (f : TransferRecord → TransferRecord) (hist : List TransferRecord)
    (hf : ∀ r, r.incoming_hash = h → (f r).incoming_hash = h) :
    findRecord (updateFirst h f hist) h = (findRecord hist h).map f := by
  induction hist with
  | nil => rfl
  | cons r rs ih =>
    by_cases hr : r.incoming_hash = h
    · simp only [updateFirst, if_pos hr, findRecord, List.find?_cons]
      simp [hf r hr, hr]
    · simp only [updateFirst, if_neg hr, findRecord, List.find?_cons]
      simp only [findRecord] at ih
      simp [hr, ih]

/-- Looking up a different hash is unaffected by `updateFirst`, provided the
rewrite keeps the hash. -/
theorem findRecord_updateFirst_ne (h h' : String)
    (f : TransferRecord → TransferRecord) (hist : List TransferRecord)
    (hne : h ≠ h')
    (hf : ∀ r, r.incoming_hash = h' → (f r).incoming_hash = h') :
    findRecord (updateFirst h' f hist) h = findRecord hist h := by
  induction hist with
  | nil => rfl
  | cons r rs ih =>
    by_cases hr : r.incoming_hash = h'
    · simp only [updateFirst, if_pos hr, findRecord, List.find?_cons]
      simp only [findRecord] at ih
      simp [hf r hr, hr, Ne.symm hne]
    · simp only [updateFirst, if_neg hr, findRecord, List.find?_cons]
      simp only [findRecord] at ih
      simp [hr, ih]

/-- The trace entry of one iteration records the processed hash. -/
theorem clearPendingIter_att_hash (env : ChainEnv) (now : Nat) (h : String)
    (r : TransferRecord) (st : EchoState) (nonce : Nat) :
    (clearPendingIter env now h r st nonce).att.hash = h := by
  simp only [clearPendingIter]
  split <;> rfl

/-- The trace entry of one iteration records the nonce it was offered. -/
theorem clearPendingIter_att_nonce (env : ChainEnv) (now : Nat) (h : String)
    (r : TransferRecord) (st : EchoState) (nonce : Nat) :
    (clearPendingIter env now h r st nonce).att.nonce = nonce := by
  simp only [clearPendingIter]
  split <;> rfl

/-- The loop continues exactly when `_echo_transfer` returned `True`. -/
theorem clearPendingIter_cont_eq_handled (env : ChainEnv) (now : Nat)
    (h : String) (r : TransferRecord) (st : EchoState) (nonce : Nat) :
    (clearPendingIter env now h r st nonce).cont =
      (clearPendingIter env now h r st nonce).att.handled := by
  simp only [clearPendingIter]
  split <;> rename_i hh
  · simp [hh]
  · simp
    simpa using hh

/-- On a handled iteration the nonce counter advances exactly when the record
resolved to status `success`. -/
theorem clearPendingIter_nonce_of_cont (env : ChainEnv) (now : Nat)
    (h : String) (r : TransferRecord) (st : EchoState) (nonce : Nat)
    (hc : (clearPendingIter env now h r st nonce).cont = true) :
    (clearPendingIter env now h r st nonce).nonce =
      if (clearPendingIter env now h r st nonce).att.statusAfter = Status.success
      then nonce + 1 else nonce := by
  simp only [clearPendingIter] at hc ⊢
  split at hc <;> rename_i hh
  · rw [if_pos hh]
  · simp at hc

/-- On an unhandled iteration the nonce counter is left alone. -/
theorem clearPendingIter_nonce_of_not_cont (env : ChainEnv) (now : Nat)
    (h : String) (r : TransferRecord) (st : EchoState) (nonce : Nat)
    (hc : (clearPendingIter env now h r st nonce).cont = false) :
    (clearPendingIter env now h r st nonce).nonce = nonce := by
  simp only [clearPendingIter] at hc ⊢
  split at hc <;> rename_i hh
  · simp at hc
  · rw [if_neg hh]

/-- A handled iteration removes the processed hash from `pending_hashes`. -/
theorem clearPendingIter_pending_of_cont (env : ChainEnv) (now : Nat)
    (h : String) (r : TransferRecord) (st : EchoState) (nonce : Nat)
    (hc : (clearPendingIter env now h r st nonce).cont = true) :
    (clearPendingIter env now h r st nonce).state.pending_hashes =
      st.pending_hashes.erase h := by
  simp only [clearPendingIter] at hc ⊢
  split at hc <;> rename_i hh
  · rw [if_pos hh]
  · simp at hc

/-- An unhandled iteration leaves `pending_hashes` untouched. -/
theorem clearPendingIter_pending_of_not_cont (env : ChainEnv) (now : Nat)
    (h : String) (r : TransferRecord) (st : EchoState) (nonce : Nat)
    (hc : (clearPendingIter env now h r st nonce).cont = false) :
    (clearPendingIter env now h r st nonce).state.pending_hashes =
      st.pending_hashes := by
  simp only [clearPendingIter] at hc ⊢
  split at hc <;> rename_i hh
  · simp at hc
  · rw [if_neg hh]

/-- A handled iteration leaves the record in a terminal status. -/
theorem clearPendingIter_statusAfter_of_cont (env : ChainEnv) (now : Nat)
    (h : String) (r : TransferRecord) (st : EchoState) (nonce : Nat)
    (hc : (clearPendingIter env now h r st nonce).cont = true) :
    (clearPendingIter env now h r st nonce).att.statusAfter = Status.success ∨
    (clearPendingIter env now h r st nonce).att.statusAfter = Status.skipped := by
  simp only [clearPendingIter] at hc ⊢
  split at hc <;> rename_i hh
  · rw [if_pos hh]
    exact echoTransfer_handled_status _ _ _ _ hh
  · simp at hc

/-- Rewriting the same hash twice and looking it up yields the second write,
provided a record with that hash is present and both writes keep the hash. -/
theorem findRecord_double_update (hist : List TransferRecord) (h : String)
    (r1 rec2 : TransferRecord) (hex : ∃ r, findRecord hist h = some r)
    (h1 : r1.incoming_hash = h) (h2 : rec2.incoming_hash = h) :
    findRecord (updateFirst h (fun _ => rec2)
      (updateFirst h (fun _ => r1) hist)) h = some rec2 := by
  obtain ⟨r, hr⟩ := hex
  rw [findRecord_updateFirst_self h _ _ (fun _ _ => h2),
    findRecord_updateFirst_self h _ _ (fun _ _ => h1), hr]
  rfl

/-- After one iteration, looking up the processed hash finds the resolved
record, whose status is exactly the trace entry's `statusAfter`. -/
theorem clearPendingIter_find_self (env : ChainEnv) (now : Nat) (h : String)
    (r : TransferRecord) (st : EchoState) (nonce : Nat)
    (hfind : findRecord st.history h = some r) :
    ∃ rec2, findRecord (clearPendingIter env now h r st nonce).state.history h
        = some rec2 ∧
      rec2.status = (clearPendingIter env now h r st nonce).att.statusAfter := by
  simp only [clearPendingIter]
  split <;> rename_i hh <;>
  · refine ⟨_, findRecord_double_update _ _ _ _ ⟨r, hfind⟩ ?_ ?_, rfl⟩
    · show r.incoming_hash = h
      exact findRecord_hash hfind
    · refine (echoTransfer_incoming_hash _ _ _ _).trans ?_
      show r.incoming_hash = h
      exact findRecord_hash hfind

/-- A double rewrite of one hash leaves the lookup of any other hash alone,
provided both writes keep the hash. -/
theorem findRecord_double_update_ne (hist : List TransferRecord)
    (h h' : String) (r1 rec2 : TransferRecord) (hne : h' ≠ h)
    (h1 : r1.incoming_hash = h) (h2 : rec2.incoming_hash = h) :
    findRecord (updateFirst h (fun _ => rec2)
        (updateFirst h (fun _ => r1) hist)) h'
      = findRecord hist h' := by
  rw [findRecord_updateFirst_ne _ _ _ _ hne (fun _ _ => h2),
    findRecord_updateFirst_ne _ _ _ _ hne (fun _ _ => h1)]

/-- One iteration does not disturb the lookup of any other hash. -/
theorem clearPendingIter_find_ne (env : ChainEnv) (now : Nat) (h : String)
    (r : TransferRecord) (st : EchoState) (nonce : Nat) (h' : String)
    (hne : h' ≠ h) (hfind : findRecord st.history h = some r) :
    findRecord (clearPendingIter env now h r st nonce).state.history h'
      = findRecord st.history h' := by
  simp only [clearPendingIter]
  split <;> rename_i hh <;>
  · refine findRecord_double_update_ne _ _ _ _ _ hne ?_ ?_
    · show r.incoming_hash = h
      exact findRecord_hash hfind
    · refine (echoTransfer_incoming_hash _ _ _ _).trans ?_
      show r.incoming_hash = h
      exact findRecord_hash hfind

/-- One iteration does not disturb the pending membership of any other hash. -/
theorem clearPendingIter_pending_ne (env : ChainEnv) (now : Nat) (h : String)
    (r : TransferRecord) (st : EchoState) (nonce : Nat) (h' : String)
    (hne : h' ≠ h) :
    (h' ∈ (clearPendingIter env now h r st nonce).state.pending_hashes ↔
      h' ∈ st.pending_hashes) := by
  simp only [clearPendingIter]
  split <;> rename_i hh
  · exact List.mem_erase_of_ne hne
  · exact Iff.rfl

/-- One iteration touches none of the scan/persistence counters. -/
theorem clearPendingIter_frame (env : ChainEnv) (now : Nat) (h : String)
    (r : TransferRecord) (st : EchoState) (nonce : Nat) :
    (clearPendingIter env now h r st nonce).state.last_block = st.last_block ∧
    (clearPendingIter env now h r st nonce).state.persisted_block
      = st.persisted_block ∧
    (clearPendingIter env now h r st nonce).state.last_save_at
      = st.last_save_at := by
  simp only [clearPendingIter]
  split <;> exact ⟨rfl, rfl, rfl⟩

/-- The batch loop touches none of the scan/persistence counters. -/
theorem clearPendingAux_frame (addr : String) (envs : Nat → ChainEnv)
    (now : Nat) :
    ∀ (pend : List String) (k : Nat) (st : EchoState) (n0 : Nat),
      (clearPendingAux addr envs now pend k st n0).state.last_block
        = st.last_block ∧
      (clearPendingAux addr envs now pend k st n0).state.persisted_block
        = st.persisted_block ∧
      (clearPendingAux addr envs now pend k st n0).state.last_save_at
        = st.last_save_at := by
  intro pend
  induction pend with
  | nil => exact fun k st n0 => ⟨rfl, rfl, rfl⟩
  | cons h rest ih =>
    intro k st n0
    rcases hfind : findRecord st.history h with _ | r <;>
      simp only [clearPendingAux, hfind]
    · exact ih k _ n0
    · split <;> rename_i hc
      · obtain ⟨a1, a2, a3⟩ := ih (k + 1)
          (clearPendingIter (envs k) now h r st n0).state
          (clearPendingIter (envs k) now h r st n0).nonce
        obtain ⟨b1, b2, b3⟩ := clearPendingIter_frame (envs k) now h r st n0
        exact ⟨a1.trans b1, a2.trans b2, a3.trans b3⟩
      · exact clearPendingIter_frame (envs k) now h r st n0

/-- Every trace entry of a batch comes from the snapshot being iterated. -/
theorem clearPendingAux_att_mem (addr : String) (envs : Nat → ChainEnv)
    (now : Nat) :
    ∀ (pend : List String) (k : Nat) (st : EchoState) (n0 : Nat)
      (a : Attempt),
      a ∈ (clearPendingAux addr envs now pend k st n0).attempts →
      a.hash ∈ pend := by
  intro pend
  induction pend with
  | nil =>
    intro k st n0 a ha
    simp [clearPendingAux] at ha
  | cons h rest ih =>
    intro k st n0 a ha
    rcases hfind : findRecord st.history h with _ | r <;>
      simp only [clearPendingAux, hfind] at ha
    · exact List.mem_cons_of_mem _ (ih k _ n0 a ha)
    · split at ha <;> rename_i hc
      · rcases List.mem_cons.mp ha with h1 | h1
        · rw [h1, clearPendingIter_att_hash]
          exact List.mem_cons_self _ _
        · exact List.mem_cons_of_mem _ (ih (k + 1) _ _ a h1)
      · rcases List.mem_cons.mp ha with h1 | h1
        · rw [h1, clearPendingIter_att_hash]
          exact List.mem_cons_self _ _
        · simp at h1

/-- A hash outside the iterated snapshot keeps its history lookup. -/
theorem clearPendingAux_find_preserve (addr : String) (envs : Nat → ChainEnv)
    (now : Nat) :
    ∀ (pend : List String) (k : Nat) (st : EchoState) (n0 : Nat) (h' : String),
      h' ∉ pend →
      findRecord (clearPendingAux addr envs now pend k st n0).state.history h'
        = findRecord st.history h' := by
  intro pend
  induction pend with
  | nil => exact fun k st n0 h' _ => rfl
  | cons h rest ih =>
    intro k st n0 h' hnm
    have hne : h' ≠ h := fun he => hnm (he ▸ List.mem_cons_self _ _)
    have hnr : h' ∉ rest := fun hm => hnm (List.mem_cons_of_mem _ hm)
    rcases hfind : findRecord st.history h with _ | r <;>
      simp only [clearPendingAux, hfind]
    · exact ih k _ n0 h' hnr
    · split <;> rename_i hc
      · exact (ih (k + 1) _ _ h' hnr).trans
          (clearPendingIter_find_ne (envs k) now h r st n0 h' hne hfind)
      · exact clearPendingIter_find_ne (envs k) now h r st n0 h' hne hfind

/-- A hash outside the iterated snapshot keeps its pending membership. -/
theorem clearPendingAux_pending_preserve (addr : String)
    (envs : Nat → ChainEnv) (now : Nat) :
    ∀ (pend : List String) (k : Nat) (st : EchoState) (n0 : Nat) (h' : String),
      h' ∉ pend →
      ((h' ∈ (clearPendingAux addr envs now pend k st n0).state.pending_hashes)
        ↔ h' ∈ st.pending_hashes) := by
  intro pend
  induction pend with
  | nil => exact fun k st n0 h' _ => Iff.rfl
  | cons h rest ih =>
    intro k st n0 h' hnm
    have hne : h' ≠ h := fun he => hnm (he ▸ List.mem_cons_self _ _)
    have hnr : h' ∉ rest := fun hm => hnm (List.mem_cons_of_mem _ hm)
    rcases hfind : findRecord st.history h with _ | r <;>
      simp only [clearPendingAux, hfind]
    · exact (ih k _ n0 h' hnr).trans (List.mem_erase_of_ne hne)
    · split <;> rename_i hc
      · exact (ih (k + 1) _ _ h' hnr).trans
          (clearPendingIter_pending_ne (envs k) now h r st n0 h' hne)
      · exact clearPendingIter_pending_ne (envs k) now h r st n0 h' hne

/-- During a batch over a duplicate-free snapshot, a hash present in
`pending_hashes` disappears from it only when it had no record in history
(an orphan, dropped immediately), or when its record's status in the final
history is terminal (`success` or `skipped`). -/
theorem clearPendingAux_removal (addr : String) (envs : Nat → ChainEnv)
    (now : Nat) :
    ∀ (pend : List String) (k : Nat) (st : EchoState) (n0 : Nat),
      pend.Nodup →
      ∀ h, h ∈ st.pending_hashes →
        h ∉ (clearPendingAux addr envs now pend k st n0).state.pending_hashes →
        findRecord st.history h = none ∨
        ∃ r, findRecord
            (clearPendingAux addr envs now pend k st n0).state.history h
          = some r ∧ (r.status = Status.success ∨ r.status = Status.skipped) := by
  intro pend
  induction pend with
  | nil =>
    intro k st n0 _ h hin hout
    exact absurd hin hout
  | cons h0 rest ih =>
    intro k st n0 hnd h hin hout
    rcases hfind : findRecord st.history h0 with _ | r
    · simp only [clearPendingAux, hfind] at hout ⊢
      by_cases he : h = h0
      · subst he
        exact Or.inl hfind
      · exact ih k _ n0 hnd.of_cons h
          ((List.mem_erase_of_ne he).mpr hin) hout
    · simp only [clearPendingAux, hfind] at hout ⊢
      by_cases hc : (clearPendingIter (envs k) now h0 r st n0).cont = true
      · rw [if_pos hc] at hout ⊢
        by_cases he : h = h0
        · subst he
          right
          obtain ⟨rec2, hrec2, hst⟩ :=
            clearPendingIter_find_self (envs k) now h r st n0 hfind
          refine ⟨rec2, ?_, ?_⟩
          · rw [clearPendingAux_find_preserve addr envs now rest (k + 1) _ _ h
              (List.nodup_cons.mp hnd).1]
            exact hrec2
          · rw [hst]
            exact clearPendingIter_statusAfter_of_cont (envs k) now h r st n0 hc
        · have hin1 : h ∈ (clearPendingIter (envs k) now h0 r st n0).state.pending_hashes :=
            (clearPendingIter_pending_ne (envs k) now h0 r st n0 h he).mpr hin
          rcases ih (k + 1) _ _ hnd.of_cons h hin1 hout with hnone | hsome
          · rw [clearPendingIter_find_ne (envs k) now h0 r st n0 h he hfind]
              at hnone
            exact Or.inl hnone
          · exact Or.inr hsome
      · rw [if_neg hc] at hout
        have hc' : (clearPendingIter (envs k) now h0 r st n0).cont = false :=
          Bool.eq_false_iff.mpr hc
        rw [clearPendingIter_pending_of_not_cont (envs k) now h0 r st n0 hc']
          at hout
        exact absurd hin hout

/-- Every trace entry of a batch except possibly the last reports a handled
outcome: the first unhandled (`defer`/`failed`) outcome halts the batch. -/
theorem clearPendingAux_halt (addr : String) (envs : Nat → ChainEnv)
    (now : Nat) :
    ∀ (pend : List String) (k : Nat) (st : EchoState) (n0 : Nat) (a : Attempt),
      a ∈ (clearPendingAux addr envs now pend k st n0).attempts.dropLast →
      a.handled = true := by
  intro pend
  induction pend with
  | nil =>
    intro k st n0 a ha
    simp [clearPendingAux] at ha
  | cons h0 rest ih =>
    intro k st n0 a ha
    rcases hfind : findRecord st.history h0 with _ | r <;>
      simp only [clearPendingAux, hfind] at ha
    · exact ih k _ n0 a ha
    · rw [clearPendingIter_cont_eq_handled] at ha
      by_cases hc : (clearPendingIter (envs k) now h0 r st n0).att.handled = true
      · rw [if_pos hc] at ha
        rcases hsub : (clearPendingAux addr envs now rest (k + 1)
            (clearPendingIter (envs k) now h0 r st n0).state
            (clearPendingIter (envs k) now h0 r st n0).nonce).attempts
            with _ | ⟨a0, as⟩
        · rw [hsub] at ha
          simp at ha
        · rw [hsub] at ha
          rcases List.mem_cons.mp (by simpa [List.dropLast] using ha)
              with h1 | h1
          · rw [h1]
            exact hc
          · refine ih (k + 1)
              (clearPendingIter (envs k) now h0 r st n0).state
              (clearPendingIter (envs k) now h0 r st n0).nonce a ?_
            rw [hsub]
            exact h1
      · rw [if_neg hc] at ha
        simp at ha

/-- Nonce packing: in any batch started with nonce `n0`, the `i`-th attempted
record is offered nonce `n0 + s` where `s` is the number of earlier attempts
in the batch that resolved to status `success`. -/
theorem clearPendingAux_nonce_formula (addr : String) (envs : Nat → ChainEnv)
    (now : Nat) :
    ∀ (pend : List String) (k : Nat) (st : EchoState) (n0 : Nat) (i : Nat)
      (a : Attempt),
      (clearPendingAux addr envs now pend k st n0).attempts.get? i = some a →
      a.nonce = n0 +
        (((clearPendingAux addr envs now pend k st n0).attempts.take i).filter
          (fun x => x.statusAfter = Status.success)).length := by
  intro pend
  induction pend with
  | nil =>
    intro k st n0 i a ha
    simp [clearPendingAux] at ha
  | cons h0 rest ih =>
    intro k st n0 i a ha
    rcases hfind : findRecord st.history h0 with _ | r <;>
      simp only [clearPendingAux, hfind] at ha ⊢
    · exact ih k _ n0 i a ha
    · by_cases hc : (clearPendingIter (envs k) now h0 r st n0).cont = true
      · rw [if_pos hc] at ha ⊢
        cases i with
        | zero =>
          simp only [List.get?] at ha
          cases ha
          simp [clearPendingIter_att_nonce]
        | succ j =>
          simp only [List.get?] at ha
          have hrec := ih (k + 1)
            (clearPendingIter (envs k) now h0 r st n0).state
            (clearPendingIter (envs k) now h0 r st n0).nonce j a ha
          have hnc := clearPendingIter_nonce_of_cont (envs k) now h0 r st n0 hc
          rw [List.take_succ_cons, List.filter_cons]
          split <;> rename_i hs
          · rw [if_pos (of_decide_eq_true hs)] at hnc
            simp only [List.length_cons]
            omega
          · rw [if_neg (fun hcon => hs (decide_eq_true hcon))] at hnc
            omega
      · rw [if_neg hc] at ha ⊢
        cases i with
        | zero =>
          simp only [List.get?] at ha
          cases ha
          simp [clearPendingIter_att_nonce]
        | succ j =>
          simp only [List.get?] at ha
          simp at ha

/-- No rollback: over a duplicate-free snapshot, every attempt that reported
a handled outcome has its resolved status durably present in the batch's
final history, regardless of later attempts failing or deferring. -/
theorem clearPendingAux_recorded (addr : String) (envs : Nat → ChainEnv)
    (now : Nat) :
    ∀ (pend : List String) (k : Nat) (st : EchoState) (n0 : Nat),
      pend.Nodup →
      ∀ (i : Nat) (a : Attempt),
        (clearPendingAux addr envs now pend k st n0).attempts.get? i = some a →
        a.handled = true →
        ∃ r, findRecord
            (clearPendingAux addr envs now pend k st n0).state.history a.hash
          = some r ∧ r.status = a.statusAfter := by
  intro pend
  induction pend with
  | nil =>
    intro k st n0 _ i a ha _
    simp [clearPendingAux] at ha
  | cons h0 rest ih =>
    intro k st n0 hnd i a ha hh
    rcases hfind : findRecord st.history h0 with _ | r <;>
      simp only [clearPendingAux, hfind] at ha ⊢
    · exact ih k _ n0 hnd.of_cons i a ha hh
    · by_cases hc : (clearPendingIter (envs k) now h0 r st n0).cont = true
      · rw [if_pos hc] at ha ⊢
        cases i with
        | zero =>
          simp only [List.get?] at ha
          cases ha
          obtain ⟨rec2, hrec2, hst⟩ :=
            clearPendingIter_find_self (envs k) now h0 r st n0 hfind
          refine ⟨rec2, ?_, hst⟩
          rw [clearPendingIter_att_hash,
            clearPendingAux_find_preserve addr envs now rest (k + 1) _ _ h0
              (List.nodup_cons.mp hnd).1]
          exact hrec2
        | succ j =>
          simp only [List.get?] at ha
          exact ih (k + 1) _ _ hnd.of_cons j a ha hh
      · rw [if_neg hc] at ha
        cases i with
        | zero =>
          simp only [List.get?] at ha
          cases ha
          rw [← clearPendingIter_cont_eq_handled] at hh
          exact absurd hh hc
        | succ j =>
          simp only [List.get?] at ha
          simp at ha

/-! ## C3 and C4: the pending-hash discipline of `_clear_pending` -/

/-- **C3 (amended).**  Over a duplicate-free `pending_hashes`: (1) a hash is
removed from `pending_hashes` by a batch only when no record for it exists in
history (an orphan, dropped immediately) or when its record's status in the
batch's final history is terminal (`success` or `skipped`); (2) a batch only
ever attempts hashes present in `pending_hashes`; and (3) scanning never
re-adds a hash that still has a record (of any status, in particular
`success`/`skipped`) in history. -/
theorem claim_C3_terminal_removal (addr : String) (envs : Nat → ChainEnv)
    (now : Nat) (st : EchoState) (nonceRes : Option Nat)
    (hnd : st.pending_hashes.Nodup) :
    (∀ h, h ∈ st.pending_hashes →
      h ∉ (clearPending addr envs now st nonceRes).state.pending_hashes →
      findRecord st.history h = none ∨
      ∃ r, findRecord (clearPending addr envs now st nonceRes).state.history h
          = some r ∧ (r.status = Status.success ∨ r.status = Status.skipped)) ∧
    (∀ a ∈ (clearPending addr envs now st nonceRes).attempts,
      a.hash ∈ st.pending_hashes) ∧
    (∀ (addr' : String) (bn now' : Nat) (st' : EchoState) (tx : ChainTx),
      (∃ r ∈ st'.history, r.incoming_hash = normHash tx.hash) →
      applyTx addr' bn now' st' tx = (st', false)) := by
  refine ⟨?_, ?_, fun addr' bn now' st' tx hex => applyTx_dup_noop addr' bn now' st' tx hex⟩
  · intro h hin hout
    unfold clearPending at hout ⊢
    by_cases hemp : st.pending_hashes = []
    · rw [if_pos hemp] at hout
      exact absurd hin hout
    · rw [if_neg hemp] at hout ⊢
      cases nonceRes with
      | none => exact absurd hin hout
      | some n0 =>
        exact clearPendingAux_removal addr envs now _ 0 st n0 hnd h hin hout
  · intro a ha
    unfold clearPending at ha
    by_cases hemp : st.pending_hashes = []
    · rw [if_pos hemp] at ha
      simp at ha
    · rw [if_neg hemp] at ha
      cases nonceRes with
      | none => simp at ha
      | some n0 => exact clearPendingAux_att_mem addr envs now _ 0 st n0 a ha

/-- A chain environment whose sign and broadcast calls both succeed. -/
def broadcastOkEnv : ChainEnv :=
  { chain_id := 1, balance := 30000, priority_fee := 1, max_fee := 1,
    sign := fun _ => Except.ok "rawtx",
    broadcast := fun _ => Except.ok "0xecho" }

/-- A one-record state whose pending transfer is uneconomical (value 5), so
resolution skips it — a terminal outcome removing the hash (C3 witness). -/
def skipBatchState : EchoState :=
  { initialState with history := [rescanRecord], pending_hashes := ["0xa0"] }

/-- Witness for the amended C3: the skipped record's hash leaves
`pending_hashes` and its final status is terminal. -/
theorem claim_C3_terminal_removal_witness :
    skipBatchState.pending_hashes.Nodup ∧
    ("0xa0" ∈ skipBatchState.pending_hashes ∧
      "0xa0" ∉ (clearPending "0xme" (fun _ => broadcastOkEnv) 9 skipBatchState
        (some 5)).state.pending_hashes) ∧
    (findRecord skipBatchState.history "0xa0" = none ∨
      ∃ r, findRecord (clearPending "0xme" (fun _ => broadcastOkEnv) 9
          skipBatchState (some 5)).state.history "0xa0"
        = some r ∧ (r.status = Status.success ∨ r.status = Status.skipped)) :=
  ⟨by decide, ⟨by decide, by decide⟩,
    (claim_C3_terminal_removal "0xme" (fun _ => broadcastOkEnv) 9
      skipBatchState (some 5) (by decide)).1 "0xa0" (by decide) (by decide)⟩

/-- A dummy environment: every signer or broadcast call fails (never reached
in the orphan counterexample). -/
def dummyEnv : ChainEnv :=
  { chain_id := 1, balance := 0, priority_fee := 1, max_fee := 1,
    sign := fun _ => Except.error "e", broadcast := fun _ => Except.error "e" }

/-- A state whose pending hash has no record in history: reachable once the
100-capped history evicts a still-pending record. -/
def orphanState : EchoState :=
  { initialState with pending_hashes := ["0xaa"] }

/-- Counterexample to C3 as stated: the orphan hash `0xaa` is removed from
`pending_hashes` although no record for it exists and no record's status ever
became `success` or `skipped` (the history stays empty and no resolution was
even attempted). -/
theorem claim_C3_counterexample :
    "0xaa" ∈ orphanState.pending_hashes ∧
    orphanState.history = [] ∧
    (clearPending "0xme" (fun _ => dummyEnv) 9 orphanState
      (some 5)).state.pending_hashes = [] ∧
    (clearPending "0xme" (fun _ => dummyEnv) 9 orphanState
      (some 5)).state.history = [] ∧
    (clearPending "0xme" (fun _ => dummyEnv) 9 orphanState
      (some 5)).attempts = [] := by
  decide

/-- **C4 (amended).**  For a batch run with the single fetched nonce `n0`
over a duplicate-free `pending_hashes`: (1) the `i`-th attempted record is
offered exactly `n0 + s`, `s` the number of earlier attempts resolved to
status `success` — sequential nonces are packed with no re-query, and
`skipped` or unhandled records consume no nonce; (2) every attempt except
possibly the last is handled: the first defer/failure halts the batch; and
(3) the resolved status of every handled attempt is durably present in the
batch's final history even when a later record halts the batch — no
rollback.  (As the counterexample shows, the nonce also advances when
resolution succeeds via the "already known" normalisation, i.e. without a
fresh broadcast in that call.) -/
theorem claim_C4_batch_nonce_discipline (addr : String)
    (envs : Nat → ChainEnv) (now : Nat) (st : EchoState) (n0 : Nat)
    (hnd : st.pending_hashes.Nodup) :
    (∀ (i : Nat) (a : Attempt),
      (clearPending addr envs now st (some n0)).attempts.get? i = some a →
      a.nonce = n0 +
        (((clearPending addr envs now st (some n0)).attempts.take i).filter
          (fun x => x.statusAfter = Status.success)).length) ∧
    (∀ a ∈ (clearPending addr envs now st (some n0)).attempts.dropLast,
      a.handled = true) ∧
    (∀ (i : Nat) (a : Attempt),
      (clearPending addr envs now st (some n0)).attempts.get? i = some a →
      a.handled = true →
      ∃ r, findRecord
          (clearPending addr envs now st (some n0)).state.history a.hash
        = some r ∧ r.status = a.statusAfter) := by
  unfold clearPending
  by_cases hemp : st.pending_hashes = []
  · rw [if_pos hemp]
    refine ⟨?_, ?_, ?_⟩
    · intro i a ha
      simp at ha
    · intro a ha
      simp at ha
    · intro i a ha _
      simp at ha
  · rw [if_neg hemp]
    exact ⟨clearPendingAux_nonce_formula addr envs now _ 0 st n0,
      clearPendingAux_halt addr envs now _ 0 st n0,
      clearPendingAux_recorded addr envs now _ 0 st n0 hnd⟩

/-- A second pending transfer record (for the two-record batch witness). -/
def secondRecord : TransferRecord :=
  { incoming_hash := "0xa2", fromAddr := "0xsender", value := 50000,
    block_number := 3, timestamp := 5, status := Status.received,
    echo_hash := none, echo_value := "Transfer detected", gas_fee := none }

/-- A first pending transfer record (for the two-record batch witness). -/
def firstRecord : TransferRecord :=
  { incoming_hash := "0xa1", fromAddr := "0xsender", value := 50000,
    block_number := 3, timestamp := 5, status := Status.received,
    echo_hash := none, echo_value := "Transfer detected", gas_fee := none }

/-- Two economical pending transfers awaiting resolution. -/
def twoPendingState : EchoState :=
  { initialState with
    history := [firstRecord, secondRecord],
    pending_hashes := ["0xa1", "0xa2"] }

/-- Witness for the amended C4: two records resolved in one batch started at
nonce 5 use the sequential nonces 5 and 6. -/
theorem claim_C4_batch_nonce_discipline_witness :
    twoPendingState.pending_hashes.Nodup ∧
    (clearPending "0xme" (fun _ => broadcastOkEnv) 9 twoPendingState
        (some 5)).attempts.get? 1
      = some ⟨"0xa2", 6, Status.success, true, true⟩ ∧
    (⟨"0xa2", 6, Status.success, true, true⟩ : Attempt).nonce
      = 5 + (((clearPending "0xme" (fun _ => broadcastOkEnv) 9 twoPendingState
          (some 5)).attempts.take 1).filter
        (fun x => x.statusAfter = Status.success)).length :=
  ⟨by decide, by decide,
    (claim_C4_batch_nonce_discipline "0xme" (fun _ => broadcastOkEnv) 9
        twoPendingState 5 (by decide)).1 1
      ⟨"0xa2", 6, Status.success, true, true⟩ (by decide)⟩

/-- An environment whose broadcast fails with an "already known" error. -/
def alreadyKnownEnv : ChainEnv :=
  { chain_id := 1, balance := 30000, priority_fee := 1, max_fee := 1,
    sign := fun _ => Except.ok "rawtx",
    broadcast := fun _ => Except.error "already known" }

/-- One economical pending transfer whose broadcast will report
"already known". -/
def alreadyKnownState : EchoState :=
  { initialState with history := [firstRecord], pending_hashes := ["0xa1"] }

/-- Counterexample to C4 as stated: the only record of the batch fails its
broadcast call with "already known" — so nothing was actually
signed-and-broadcast successfully in this batch (`freshBroadcast = false`) —
yet the local nonce counter advances from 5 to 6 because the record was
normalised to `success`. -/
theorem claim_C4_counterexample :
    (clearPending "0xme" (fun _ => alreadyKnownEnv) 9 alreadyKnownState
        (some 5)).attempts
      = [⟨"0xa1", 5, Status.success, true, false⟩] ∧
    (clearPending "0xme" (fun _ => alreadyKnownEnv) 9 alreadyKnownState
        (some 5)).finalNonce = 6 := by
  decide

/-! ## C9: the persisted frontier never exceeds the scanned frontier -/

/-- Scanning a transaction touches none of the block/persistence counters. -/
theorem applyTx_frame (addr : String) (bn now : Nat) (st : EchoState)
    (tx : ChainTx) :
    (applyTx addr bn now st tx).fst.last_block = st.last_block ∧
    (applyTx addr bn now st tx).fst.persisted_block = st.persisted_block ∧
    (applyTx addr bn now st tx).fst.last_save_at = st.last_save_at := by
  simp only [applyTx]
  split
  · split
    · exact ⟨rfl, rfl, rfl⟩
    · exact ⟨rfl, rfl, rfl⟩
  · exact ⟨rfl, rfl, rfl⟩

/-- The transaction loop touches none of the block/persistence counters. -/
theorem scanTxs_frame (addr : String) (bn now : Nat) :
    ∀ (txs : List ChainTx) (st : EchoState) (found : Nat),
      (scanTxs addr bn now txs st found).fst.last_block = st.last_block ∧
      (scanTxs addr bn now txs st found).fst.persisted_block
        = st.persisted_block ∧
      (scanTxs addr bn now txs st found).fst.last_save_at
        = st.last_save_at := by
  intro txs
  induction txs with
  | nil => exact fun st found => ⟨rfl, rfl, rfl⟩
  | cons tx rest ih =>
    intro st found
    obtain ⟨a1, a2, a3⟩ := applyTx_frame addr bn now st tx
    rcases happ : applyTx addr bn now st tx with ⟨st1, created⟩
    rw [happ] at a1 a2 a3
    obtain ⟨b1, b2, b3⟩ := ih st1 (if created then found + 1 else found)
    simp only [scanTxs, happ]
    exact ⟨b1.trans a1, b2.trans a2, b3.trans a3⟩

/-- A scanned block outcome touches none of the block/persistence counters. -/
theorem processBlock_frame (addr : String) (st : EchoState) (bn now : Nat)
    (fetch : FetchResult) (st' : EchoState) (found : Nat)
    (hpb : processBlock addr st bn now fetch = BlockOutcome.scanned st' found) :
    st'.last_block = st.last_block ∧
    st'.persisted_block = st.persisted_block ∧
    st'.last_save_at = st.last_save_at := by
  cases fetch with
  | err msg =>
    simp only [processBlock] at hpb
    split at hpb
    · exact absurd hpb (by simp)
    · cases hpb
      exact ⟨rfl, rfl, rfl⟩
  | ok txs =>
    simp only [processBlock] at hpb
    obtain ⟨a1, a2, a3⟩ := scanTxs_frame addr bn now txs st 0
    rcases hscan : scanTxs addr bn now txs st 0 with ⟨st1, f1⟩
    rw [hscan] at hpb a1 a2 a3
    cases hpb
    exact ⟨a1, a2, a3⟩

/-- The block loop never touches `persisted_block` or `last_save_at`. -/
theorem scanLoop_frame (addr : String) (current now : Nat)
    (fetch : Nat → FetchResult) :
    ∀ (bs : List Nat) (st : EchoState),
      (scanLoop addr current now fetch bs st).persisted_block
        = st.persisted_block ∧
      (scanLoop addr current now fetch bs st).last_save_at
        = st.last_save_at := by
  intro bs
  induction bs with
  | nil => exact fun st => ⟨rfl, rfl⟩
  | cons b rest ih =>
    intro st
    simp only [scanLoop]
    rcases hpb : processBlock addr st b now (fetch b) with _ | ⟨st1, found⟩
    · exact ⟨rfl, rfl⟩
    · obtain ⟨a1, a2, a3⟩ := processBlock_frame addr st b now (fetch b) st1
        found hpb
      obtain ⟨b1, b2⟩ := ih _
      exact ⟨b1.trans a2, b2.trans a3⟩

/-- The scanning phase never touches `persisted_block`, and never decreases
`last_block`. -/
theorem scanPhase_facts (addr : String) (st : EchoState) (current now : Nat)
    (fetch : Nat → FetchResult) :
    (scanPhase addr st current now fetch).persisted_block
      = st.persisted_block ∧
    st.last_block ≤ (scanPhase addr st current now fetch).last_block := by
  unfold scanPhase
  split <;> rename_i hgt
  · constructor
    · exact (scanLoop_frame addr current now fetch _ st).1
    · rw [scanBlocks_last_eq addr st (st.last_block + 1) current now fetch
        (by omega)]
      omega
  · exact ⟨rfl, le_rfl⟩

/-- A `_clear_pending` batch touches none of the block/persistence counters. -/
theorem clearPending_frame (addr : String) (envs : Nat → ChainEnv) (now : Nat)
    (st : EchoState) (nonceRes : Option Nat) :
    (clearPending addr envs now st nonceRes).state.last_block
      = st.last_block ∧
    (clearPending addr envs now st nonceRes).state.persisted_block
      = st.persisted_block := by
  unfold clearPending
  split
  · exact ⟨rfl, rfl⟩
  · cases nonceRes with
    | none => exact ⟨rfl, rfl⟩
    | some n0 =>
      obtain ⟨a1, a2, _⟩ := clearPendingAux_frame addr envs now
        st.pending_hashes 0 st n0
      exact ⟨a1, a2⟩

/-- `_save_state` never touches `last_block`, and touches `persisted_block`
only by setting it to `last_block` after a successful put. -/
theorem saveState_facts (st : EchoState) (putOk : Bool) (now : Nat)
    (force : Bool) :
    (saveState st putOk now force).fst.last_block = st.last_block ∧
    ((saveState st putOk now force).fst.persisted_block = st.persisted_block ∨
      (putOk = true ∧ (saveState st putOk now force).fst.persisted_block
        = st.last_block)) := by
  unfold saveState
  split_ifs with h1 h2
  · exact ⟨rfl, Or.inl rfl⟩
  · exact ⟨rfl, Or.inr ⟨h2, rfl⟩⟩
  · exact ⟨rfl, Or.inl rfl⟩

/-- `_persist_if_dirty` never touches `last_block`, and touches
`persisted_block` only by setting it to `last_block`. -/
theorem persistIfDirty_facts (st : EchoState) (putOk : Bool) (now : Nat) :
    (persistIfDirty st putOk now).fst.last_block = st.last_block ∧
    ((persistIfDirty st putOk now).fst.persisted_block = st.persisted_block ∨
      (persistIfDirty st putOk now).fst.persisted_block = st.last_block) := by
  unfold persistIfDirty
  split_ifs with h1
  · obtain ⟨a1, a2⟩ := saveState_facts st putOk now false
    exact ⟨a1, a2.imp id And.right⟩
  · exact ⟨rfl, Or.inl rfl⟩

/-- Every outcome of `start` has its persisted frontier equal to its scanned
frontier. -/
theorem start_persist_eq (blob : Option SavedState)
    (legacyLastBlock : Option Nat) (chainHeight : Nat)
    (legacy : List (Option TransferRecord)) (putOk : Bool) (now : Nat) :
    (start blob legacyLastBlock chainHeight legacy putOk now).fst.persisted_block
      = (start blob legacyLastBlock chainHeight legacy putOk now).fst.last_block := by
  cases blob with
  | some s => rfl
  | none =>
    cases legacyLastBlock with
    | some b => rfl
    | none => rfl

/-- Every engine step leaves `last_block` no smaller. -/
theorem step_last_mono {addr : String} {st st' : EchoState}
    (hs : Step addr st st') : st.last_block ≤ st'.last_block := by
  cases hs with
  | scan current now fetch => exact (scanPhase_facts addr st current now fetch).2
  | clear envs now nonceRes =>
    exact le_of_eq (clearPending_frame addr envs now st nonceRes).1.symm
  | persist putOk now =>
    exact le_of_eq (persistIfDirty_facts st putOk now).1.symm

/-- Every engine step preserves `persisted_block ≤ last_block`. -/
theorem step_invariant {addr : String} {st st' : EchoState}
    (hinv : st.persisted_block ≤ st.last_block) (hs : Step addr st st') :
    st'.persisted_block ≤ st'.last_block := by
  cases hs with
  | scan current now fetch =>
    obtain ⟨h1, h2⟩ := scanPhase_facts addr st current now fetch
    omega
  | clear envs now nonceRes =>
    obtain ⟨h1, h2⟩ := clearPending_frame addr envs now st nonceRes
    omega
  | persist putOk now =>
    obtain ⟨h1, h2⟩ := persistIfDirty_facts st putOk now
    rcases h2 with h2 | h2 <;> omega

/-- **C9.**  In every reachable engine state the persisted frontier never
exceeds the scanned frontier (`persisted_block ≤ last_block`); every engine
step only advances `last_block`; and `_save_state` changes `persisted_block`
only by setting it to `last_block` after a successful store write. -/
theorem claim_C9_persisted_frontier (addr : String) :
    (∀ st, Reachable addr st → st.persisted_block ≤ st.last_block) ∧
    (∀ st st', Step addr st st' → st.last_block ≤ st'.last_block) ∧
    (∀ (st : EchoState) (putOk : Bool) (now : Nat) (force : Bool),
      (saveState st putOk now force).fst.persisted_block = st.persisted_block ∨
      (putOk = true ∧ (saveState st putOk now force).fst.persisted_block
        = st.last_block)) := by
  refine ⟨?_, fun st st' hs => step_last_mono hs,
    fun st putOk now force => (saveState_facts st putOk now force).2⟩
  intro st hr
  induction hr with
  | start blob llb h legacy putOk now => exact le_of_eq (start_persist_eq ..)
  | step hprev hstep ih => exact step_invariant ih hstep

/-- Witness for C9: a concrete freshly started state satisfies the invariant,
and a concrete persistence step does not decrease `last_block`. -/
theorem claim_C9_persisted_frontier_witness :
    (start none none 7 [] true 0).fst.persisted_block
      ≤ (start none none 7 [] true 0).fst.last_block ∧
    initialState.last_block ≤ (persistIfDirty initialState true 0).fst.last_block :=
  ⟨(claim_C9_persisted_frontier "0xme").1 _ (Reachable.start none none 7 [] true 0),
    (claim_C9_persisted_frontier "0xme").2.1 _ _ (Step.persist initialState true 0)⟩

end EchoVault
